import Mathlib

/-!
Verification of the `rust-ai-sdk` streaming LLM client.

This file is a shallow embedding of the parts of the crate that the
specification's testable properties talk about:

* `src/types.rs`  — `Usage`, `FinishReason`, `StreamChunk`, `ToolCallDelta`,
  `ToolCallAccumulator`, `ModelId`
* `src/error.rs`  — the unified error type and `is_retryable`
* `src/client.rs` — the retry loop shared by `execute_stream` / `execute_complete`
* `src/stream.rs` — the stream aggregator (`accumulate`, `finalize`)
* `src/sse.rs`    — the SSE byte parser (`feed`, `next_event`)
* `src/providers/{claude,openai,gemini}.rs` — streaming event decoders

Machine integers (`u32`, `u16`, `usize`) are modelled as `Nat`; none of the
operations involved can overflow in a way any claim depends on (`max`, `+1`
on counters).  Rust `String`s are Lean `String`s except in the SSE parser,
where the source works on raw bytes and the model uses `List Nat` (one `Nat`
per byte).  Stateful methods (`&mut self`) become explicit state passing.
-/

namespace RustAiSdk

/-! ## Usage (src/types.rs lines 109-140)

Token usage statistics.  `Usage::merge` takes the field-wise maximum.
The `&mut self` receiver is modelled by returning the updated value. -/

structure Usage where
  input_tokens : Nat
  output_tokens : Nat
  cache_read_input_tokens : Nat
  cache_creation_input_tokens : Nat
deriving DecidableEq, Repr

instance : Inhabited Usage := ⟨⟨0, 0, 0, 0⟩⟩

/-- `Usage::default()`: all four counters zero. -/
def Usage.default : Usage := ⟨0, 0, 0, 0⟩

/-- `Usage::merge`: max of each field (src/types.rs lines 130-139). -/
def Usage.merge (self other : Usage) : Usage :=
  { input_tokens := max self.input_tokens other.input_tokens
    output_tokens := max self.output_tokens other.output_tokens
    cache_read_input_tokens :=
      max self.cache_read_input_tokens other.cache_read_input_tokens
    cache_creation_input_tokens :=
      max self.cache_creation_input_tokens other.cache_creation_input_tokens }

/-- Merging a whole sequence into a fresh accumulator, as the stream
aggregator does starting from `Usage::default()`. -/
def Usage.mergeAll (us : List Usage) : Usage :=
  us.foldl Usage.merge Usage.default

/-- Field-wise order on `Usage` (used to state monotonicity of `merge`). -/
def Usage.le (a b : Usage) : Prop :=
  a.input_tokens ≤ b.input_tokens ∧
  a.output_tokens ≤ b.output_tokens ∧
  a.cache_read_input_tokens ≤ b.cache_read_input_tokens ∧
  a.cache_creation_input_tokens ≤ b.cache_creation_input_tokens

instance (a b : Usage) : Decidable (Usage.le a b) := by
  unfold Usage.le; infer_instance

/-! ## FinishReason, ChunkKind, StreamChunk (src/types.rs lines 142-269) -/

inductive FinishReason where
  | stop
  | length
  | toolCalls
  | contentFilter
  | unknown
deriving DecidableEq, Repr

inductive ChunkKind where
  | text
  | usageOnly
  | ping
  | toolDelta
  | thinking
  | unknown
deriving DecidableEq, Repr

/-- Delta for streaming tool calls (src/types.rs lines 331-337). -/
structure ToolCallDelta where
  index : Nat
  id : Option String
  function_name : Option String
  function_arguments : Option String
deriving DecidableEq, Repr

/-- A single streaming chunk (src/types.rs lines 176-197).  The private
`TextData` enum is `Empty` or `Owned(String)`; the `Borrowed` variant is dead
code (never constructed), so the model uses `Option String` where
`none = TextData::Empty`. -/
structure StreamChunk where
  kind : ChunkKind
  text_data : Option String
  finish_reason : Option FinishReason
  usage : Option Usage
  tool_call_delta : Option ToolCallDelta
deriving DecidableEq, Repr

/-- `StreamChunk::empty` (src/types.rs lines 201-209). -/
def StreamChunk.empty (kind : ChunkKind) : StreamChunk :=
  ⟨kind, none, none, none, none⟩

/-- `StreamChunk::text_owned` (src/types.rs lines 212-224). -/
def StreamChunk.textOwned (text : String) : StreamChunk :=
  ⟨ChunkKind.text, if text = "" then none else some text, none, none, none⟩

/-- `StreamChunk::usage` constructor (src/types.rs lines 227-235). -/
def StreamChunk.usageChunk (usage : Usage) : StreamChunk :=
  ⟨ChunkKind.usageOnly, none, none, some usage, none⟩

/-- `StreamChunk::text()` accessor: `None` for empty text
(src/types.rs lines 239-246). -/
def StreamChunk.text (c : StreamChunk) : Option String :=
  match c.text_data with
  | none => none
  | some s => if s = "" then none else some s

/-! ## ToolCallAccumulator (src/types.rs lines 307-387) -/

/-- Function call details. -/
structure FunctionCall where
  name : String
  arguments : String
deriving DecidableEq, Repr

/-- A tool call in the response. -/
structure ToolCall where
  id : String
  tool_type : String
  function : FunctionCall
deriving DecidableEq, Repr

/-- Private builder (src/types.rs lines 345-350). -/
structure ToolCallBuilder where
  id : String
  name : String
  arguments : String
deriving DecidableEq, Repr

def ToolCallBuilder.default : ToolCallBuilder := ⟨"", "", ""⟩

/-- Accumulator for building tool calls from deltas. -/
structure ToolCallAccumulator where
  calls : List ToolCallBuilder
deriving DecidableEq, Repr

def ToolCallAccumulator.default : ToolCallAccumulator := ⟨[]⟩

/-- `while self.calls.len() <= delta.index { push Default }` -/
def padTo (calls : List ToolCallBuilder) (index : Nat) : List ToolCallBuilder :=
  calls ++ List.replicate (index + 1 - calls.length) ToolCallBuilder.default

/-- `ToolCallAccumulator::apply` (src/types.rs lines 354-370).  Note that all
three fields use `push_str`, i.e. string concatenation, on the builder slot. -/
def ToolCallAccumulator.apply (acc : ToolCallAccumulator) (delta : ToolCallDelta) :
    ToolCallAccumulator :=
  let calls := padTo acc.calls delta.index
  let b := calls.getD delta.index ToolCallBuilder.default
  let b := { b with
    id := b.id ++ (delta.id.getD "")
    name := b.name ++ (delta.function_name.getD "")
    arguments := b.arguments ++ (delta.function_arguments.getD "") }
  ⟨calls.set delta.index b⟩

/-- `ToolCallAccumulator::finalize` (src/types.rs lines 373-386): drop
builders with empty `id`, wrap the rest. -/
def ToolCallAccumulator.finalize (acc : ToolCallAccumulator) : List ToolCall :=
  (acc.calls.filter (fun b => ¬ b.id = "")).map
    (fun b => ⟨b.id, "function", ⟨b.name, b.arguments⟩⟩)

/-! ## Error (src/error.rs) -/

/-- The unified error type (src/error.rs lines 5-50).  `reqwest::Error`
payloads carry no information any claim needs, so `Http` is a bare
constructor. -/
inductive Error where
  | RateLimited (retryAfter : Option Nat)
  | Unauthorized
  | Server (status : Nat)
  | Api (status : Nat) (message : String)
  | Timeout
  | Parse (msg : String)
  | InvalidModel (s : String)
  | MissingApiKey (provider : String)
  | Http
  | StreamConsumed
  | Config (msg : String)
deriving DecidableEq, Repr

/-- `Error::is_retryable` (src/error.rs lines 55-60): the exact `matches!`
pattern from the source. -/
def Error.is_retryable : Error → Bool
  | Error.RateLimited _ => true
  | Error.Server _ => true
  | Error.Timeout => true
  | _ => false

/-- The kind (constructor) of an error, used to state claims about the
error taxonomy. -/
inductive ErrorKind where
  | rateLimited
  | unauthorized
  | server
  | api
  | timeout
  | parseErr
  | invalidModel
  | missingApiKey
  | http
  | streamConsumed
  | config
deriving DecidableEq, Repr

def Error.kind : Error → ErrorKind
  | Error.RateLimited _ => ErrorKind.rateLimited
  | Error.Unauthorized => ErrorKind.unauthorized
  | Error.Server _ => ErrorKind.server
  | Error.Api _ _ => ErrorKind.api
  | Error.Timeout => ErrorKind.timeout
  | Error.Parse _ => ErrorKind.parseErr
  | Error.InvalidModel _ => ErrorKind.invalidModel
  | Error.MissingApiKey _ => ErrorKind.missingApiKey
  | Error.Http => ErrorKind.http
  | Error.StreamConsumed => ErrorKind.streamConsumed
  | Error.Config _ => ErrorKind.config

/-! ## ModelId (src/types.rs lines 396-411)

`ModelId::parse` uses `str::split_once('/')`, which splits at the first
slash.  Strings are modelled as `List Char` so the split can be reasoned
about positionally. -/

/-- `str::split_once('/')`: split at the first `'/'`, `none` when absent. -/
def splitOnceSlash : List Char → Option (List Char × List Char)
  | [] => none
  | c :: cs =>
    if c = '/' then some ([], cs)
    else (splitOnceSlash cs).map (fun p => (c :: p.1, p.2))

/-- `ModelId::parse`: fail on no slash or an empty half. -/
def ModelId.parse (s : List Char) : Except Error (List Char × List Char) :=
  match splitOnceSlash s with
  | none => Except.error (Error.InvalidModel (String.mk s))
  | some (provider, model) =>
    if provider = [] ∨ model = [] then
      Except.error (Error.InvalidModel (String.mk s))
    else
      Except.ok (provider, model)

/-! ## Request executor retry loop (src/client.rs lines 192-342)

`Client::execute_stream` and `Client::execute_complete` share the same retry
skeleton verbatim; only the action taken on a 2xx response differs (hand the
byte stream to an aggregator vs. parse the body).  The skeleton is modelled
once.  Each loop iteration performs exactly one HTTP POST whose result is the
next element of an oracle list of transport outcomes; sleeping and backoff
arithmetic (floats) do not influence how many requests are issued and are not
modelled. -/

/-- One transport outcome for one POST: either an HTTP response with a status
code (and the parsed `Retry-After` value for the model of
`handle_error_response`), or a `reqwest::Error` classified by its
`is_timeout()` / `is_connect()` predicates. -/
inductive ReqOutcome where
  | response (status : Nat) (retryAfter : Option Nat)
  | failTimeout
  | failConnect
  | failOther
deriving DecidableEq, Repr

/-- `reqwest::StatusCode::is_success()`: 200..=299. -/
def isSuccessStatus (status : Nat) : Bool := 200 ≤ status ∧ status ≤ 299

/-- `Client::handle_error_response` (src/client.rs lines 345-371), restricted
to the classification (the JSON `error.message` extraction is irrelevant to
retry counting and is represented by a fixed message). -/
def handleErrorResponse (status : Nat) (retryAfter : Option Nat) : Error :=
  if status = 401 then Error.Unauthorized
  else if status = 429 then Error.RateLimited retryAfter
  else if 500 ≤ status ∧ status ≤ 599 then Error.Server status
  else Error.Api status ""

/-- The retry loop of `execute_stream` / `execute_complete`
(src/client.rs lines 205-268 and 282-341).  Returns the number of HTTP
requests issued together with the result; `none` means the oracle list ran
out while the loop would have continued (the bound theorems hold regardless).
`attempt` is the loop counter, incremented at the top of each iteration. -/
def executeAttempts (maxRetries : Nat) : Nat → List ReqOutcome →
    Nat × Option (Except Error Unit)
  | _, [] => (0, none)
  | attempt, o :: rest =>
    let attempt := attempt + 1
    match o with
    | ReqOutcome.response status retryAfter =>
      if isSuccessStatus status then
        (1, some (Except.ok ()))
      else
        let e := handleErrorResponse status retryAfter
        if ¬ e.is_retryable ∨ attempt ≥ maxRetries then
          (1, some (Except.error e))
        else
          let r := executeAttempts maxRetries attempt rest
          (r.1 + 1, r.2)
    | ReqOutcome.failTimeout =>
      if attempt ≥ maxRetries then
        (1, some (Except.error Error.Timeout))
      else
        let r := executeAttempts maxRetries attempt rest
        (r.1 + 1, r.2)
    | ReqOutcome.failConnect =>
      if attempt ≥ maxRetries then
        (1, some (Except.error Error.Http))
      else
        let r := executeAttempts maxRetries attempt rest
        (r.1 + 1, r.2)
    | ReqOutcome.failOther => (1, some (Except.error Error.Http))

/-! ## Stream aggregator (src/stream.rs)

`CompletionStream` accumulation state.  The `inner` byte stream, the SSE
parser and the boxed provider parser are the driving side; the aggregation
state is the five fields below plus the `finalized` flag (`done` only gates
`next()` and never affects accumulation or finalization). -/

structure CompletionResult where
  content : String
  usage : Usage
  model : String
  finish_reason : FinishReason
  tool_calls : List ToolCall
deriving DecidableEq, Repr

/-- Aggregation state of `CompletionStream` (src/stream.rs lines 14-28). -/
structure AggState where
  content : String
  usage : Usage
  finish_reason : Option FinishReason
  tool_calls : ToolCallAccumulator
  model : String
  finalized : Bool
deriving DecidableEq, Repr

/-- `CompletionStream::new` (src/stream.rs lines 45-58). -/
def AggState.new (model : String) : AggState :=
  ⟨"", Usage.default, none, ToolCallAccumulator.default, model, false⟩

/-- `CompletionStream::accumulate` (src/stream.rs lines 114-134). -/
def AggState.accumulate (st : AggState) (chunk : StreamChunk) : AggState :=
  let st := match chunk.text with
    | some text => { st with content := st.content ++ text }
    | none => st
  let st := match chunk.usage with
    | some usage => { st with usage := st.usage.merge usage }
    | none => st
  let st := if chunk.finish_reason.isSome then
      { st with finish_reason := chunk.finish_reason }
    else st
  match chunk.tool_call_delta with
  | some delta => { st with tool_calls := st.tool_calls.apply delta }
  | none => st

/-- `CompletionStream::finalize` (src/stream.rs lines 139-152).  In Rust
`finalize(mut self)` consumes the stream; the guard on `finalized` and the
assignment `self.finalized = true` are modelled by returning the successor
state alongside the result, so that "calling finalize again" is applying the
function to that state.  `std::mem::take` leaves defaults behind. -/
def AggState.finalizeStream (st : AggState) : Except Error CompletionResult × AggState :=
  if st.finalized then
    (Except.error Error.StreamConsumed, st)
  else
    (Except.ok
      { content := st.content
        usage := st.usage
        model := st.model
        finish_reason := st.finish_reason.getD FinishReason.stop
        tool_calls := st.tool_calls.finalize },
     { st with finalized := true, content := "", usage := Usage.default, model := "" })

/-! ## Claude streaming decoder (src/providers/claude.rs lines 292-412)

Events are modelled after the deserialized `ClaudeStreamEvent`; the JSON text
layer (`serde_json::from_str`) is not part of any claim here. -/

inductive ClaudeStreamBlock where
  | text (t : String)
  | toolUse (id : String) (name : String)
  | thinking
deriving DecidableEq, Repr

inductive ClaudeStreamDelta where
  | textDelta (text : String)
  | inputJsonDelta (partialJson : String)
  | thinkingDelta
  | signatureDelta
deriving DecidableEq, Repr

structure ClaudeUsage where
  input_tokens : Nat
  output_tokens : Nat
  cache_read_input_tokens : Option Nat
  cache_creation_input_tokens : Option Nat
deriving DecidableEq, Repr

inductive ClaudeStreamEvent where
  | messageStart (usage : ClaudeUsage)
  | contentBlockStart (index : Nat) (contentBlock : ClaudeStreamBlock)
  | contentBlockDelta (index : Nat) (delta : ClaudeStreamDelta)
  | contentBlockStop (index : Nat)
  | messageDelta (stopReason : Option String) (outputTokens : Nat)
  | messageStop
  | ping
  | errorEvent (message : String)
deriving DecidableEq, Repr

/-- Mutable state of `ClaudeParser` (src/providers/claude.rs lines 293-299). -/
structure ClaudeParserState where
  current_usage : Option Usage
  current_block_type : Option String
  current_tool_id : Option String
  current_tool_name : Option String
  tool_index : Nat
deriving DecidableEq, Repr

def ClaudeParserState.new : ClaudeParserState := ⟨none, none, none, none, 0⟩

/-- `ClaudeParser::parse_chunk` (src/providers/claude.rs lines 320-406). -/
def claudeParseChunk (st : ClaudeParserState) (event : ClaudeStreamEvent) :
    ClaudeParserState × Except Error (Option StreamChunk) :=
  match event with
  | ClaudeStreamEvent.messageStart usage =>
    let u := Usage.mk usage.input_tokens usage.output_tokens
      (usage.cache_read_input_tokens.getD 0)
      (usage.cache_creation_input_tokens.getD 0)
    ({ st with current_usage := some u }, Except.ok none)
  | ClaudeStreamEvent.contentBlockStart _ contentBlock =>
    match contentBlock with
    | ClaudeStreamBlock.text _ =>
      ({ st with current_block_type := some "text" }, Except.ok none)
    | ClaudeStreamBlock.toolUse id name =>
      ({ st with current_block_type := some "tool_use",
                 current_tool_id := some id,
                 current_tool_name := some name }, Except.ok none)
    | ClaudeStreamBlock.thinking =>
      ({ st with current_block_type := some "thinking" }, Except.ok none)
  | ClaudeStreamEvent.contentBlockDelta _ delta =>
    match delta with
    | ClaudeStreamDelta.textDelta text =>
      (st, Except.ok (some (StreamChunk.textOwned text)))
    | ClaudeStreamDelta.inputJsonDelta partialJson =>
      let chunk := { StreamChunk.empty ChunkKind.toolDelta with
        tool_call_delta := some
          ⟨st.tool_index, st.current_tool_id, st.current_tool_name,
           some partialJson⟩ }
      (st, Except.ok (some chunk))
    | ClaudeStreamDelta.thinkingDelta => (st, Except.ok none)
    | ClaudeStreamDelta.signatureDelta => (st, Except.ok none)
  | ClaudeStreamEvent.contentBlockStop _ =>
    let st := if st.current_block_type = some "tool_use" then
        { st with tool_index := st.tool_index + 1 }
      else st
    ({ st with current_block_type := none, current_tool_id := none,
               current_tool_name := none }, Except.ok none)
  | ClaudeStreamEvent.messageDelta stopReason outputTokens =>
    let finishReason : Option FinishReason :=
      match stopReason with
      | some "end_turn" => some FinishReason.stop
      | some "max_tokens" => some FinishReason.length
      | some "tool_use" => some FinishReason.toolCalls
      | some "stop_sequence" => some FinishReason.stop
      | _ => none
    let st := match st.current_usage with
      | some u => { st with current_usage := some { u with output_tokens := outputTokens } }
      | none => st
    let chunk := { StreamChunk.empty ChunkKind.unknown with
      usage := st.current_usage, finish_reason := finishReason }
    (st, Except.ok (some chunk))
  | ClaudeStreamEvent.messageStop => (st, Except.ok none)
  | ClaudeStreamEvent.ping => (st, Except.ok none)
  | ClaudeStreamEvent.errorEvent message =>
    (st, Except.error (Error.Api 0 message))

/-! ## OpenAI Responses streaming decoder (src/providers/openai.rs
lines 269-372) -/

inductive OpenAIStreamItem where
  | message
  | functionCall (callId : String) (name : String)
deriving DecidableEq, Repr

structure ResponsesUsage where
  input_tokens : Nat
  output_tokens : Nat
  cached_tokens : Nat
deriving DecidableEq, Repr

structure CompletedResponse where
  status : String
  usage : Option ResponsesUsage
deriving DecidableEq, Repr

inductive OpenAIStreamEvent where
  | responseCreated
  | responseInProgress
  | outputItemAdded (item : Option OpenAIStreamItem)
  | contentPartAdded
  | outputTextDelta (delta : String)
  | outputTextDone
  | functionCallArgumentsDelta (itemId : String) (delta : String)
  | functionCallArgumentsDone
  | contentPartDone
  | outputItemDone
  | responseCompleted (response : CompletedResponse)
  | errorEvent (message : String)
  | unknown
deriving DecidableEq, Repr

/-- Mutable state of `OpenAIParser` (src/providers/openai.rs lines 270-276).
The `current_usage` field is dead code in the source (written never, read
never) and is omitted. -/
structure OpenAIParserState where
  current_tool_id : Option String
  current_tool_name : Option String
  tool_index : Nat
deriving DecidableEq, Repr

def OpenAIParserState.new : OpenAIParserState := ⟨none, none, 0⟩

/-- `response.status` → finish reason map used by the streaming decoder
(src/providers/openai.rs lines 348-352). -/
def openAIStatusFinishReason (status : String) : FinishReason :=
  if status = "completed" then FinishReason.stop
  else if status = "incomplete" then FinishReason.length
  else FinishReason.unknown

/-- `OpenAIParser::parse_chunk` (src/providers/openai.rs lines 296-367). -/
def openAIParseChunk (st : OpenAIParserState) (event : OpenAIStreamEvent) :
    OpenAIParserState × Except Error (Option StreamChunk) :=
  match event with
  | OpenAIStreamEvent.responseCreated => (st, Except.ok none)
  | OpenAIStreamEvent.responseInProgress => (st, Except.ok none)
  | OpenAIStreamEvent.outputItemAdded item =>
    match item with
    | some (OpenAIStreamItem.functionCall callId name) =>
      ({ st with current_tool_id := some callId,
                 current_tool_name := some name }, Except.ok none)
    | _ => (st, Except.ok none)
  | OpenAIStreamEvent.contentPartAdded => (st, Except.ok none)
  | OpenAIStreamEvent.outputTextDelta delta =>
    (st, Except.ok (some (StreamChunk.textOwned delta)))
  | OpenAIStreamEvent.functionCallArgumentsDelta _ delta =>
    let chunk := { StreamChunk.empty ChunkKind.toolDelta with
      tool_call_delta := some
        ⟨st.tool_index, st.current_tool_id, st.current_tool_name, some delta⟩ }
    (st, Except.ok (some chunk))
  | OpenAIStreamEvent.functionCallArgumentsDone =>
    ({ st with tool_index := st.tool_index + 1,
               current_tool_id := none, current_tool_name := none },
     Except.ok none)
  | OpenAIStreamEvent.outputTextDone => (st, Except.ok none)
  | OpenAIStreamEvent.contentPartDone => (st, Except.ok none)
  | OpenAIStreamEvent.outputItemDone => (st, Except.ok none)
  | OpenAIStreamEvent.responseCompleted response =>
    let usage := response.usage.map (fun u =>
      Usage.mk u.input_tokens u.output_tokens u.cached_tokens 0)
    let chunk := { StreamChunk.empty ChunkKind.unknown with
      usage := usage,
      finish_reason := some (openAIStatusFinishReason response.status) }
    (st, Except.ok (some chunk))
  | OpenAIStreamEvent.errorEvent message =>
    (st, Except.error (Error.Api 0 message))
  | OpenAIStreamEvent.unknown => (st, Except.ok none)

/-! ## Driving a decoder through the aggregator

`CompletionStream::next` (src/stream.rs lines 61-111) feeds each decoded
chunk to `accumulate` and yields it.  For runs without decode errors this is
a fold over the event list; an `Err` from the decoder is returned to the
caller without accumulation, which for these runs never happens. -/

def runClaudeStream (events : List ClaudeStreamEvent) (model : String) : AggState :=
  (events.foldl
    (fun (p : ClaudeParserState × AggState) e =>
      let (st, r) := claudeParseChunk p.1 e
      match r with
      | Except.ok (some chunk) => (st, p.2.accumulate chunk)
      | _ => (st, p.2))
    (ClaudeParserState.new, AggState.new model)).2

def runOpenAIStream (events : List OpenAIStreamEvent) (model : String) : AggState :=
  (events.foldl
    (fun (p : OpenAIParserState × AggState) e =>
      let (st, r) := openAIParseChunk p.1 e
      match r with
      | Except.ok (some chunk) => (st, p.2.accumulate chunk)
      | _ => (st, p.2))
    (OpenAIParserState.new, AggState.new model)).2

/-! ## Gemini streaming decoder (src/providers/gemini.rs lines 329-424)

The `fastrand::u32(..)` call that mints a local tool-call id is modelled by
an explicit oracle argument `rand`; `serde_json::to_string(&fc.args)` is
modelled by carrying the serialized argument string in the event. -/

structure GeminiFunctionCall where
  name : String
  args : String
deriving DecidableEq, Repr

structure GeminiPart where
  text : Option String
  function_call : Option GeminiFunctionCall
deriving DecidableEq, Repr

structure GeminiContent where
  parts : List GeminiPart
deriving DecidableEq, Repr

structure GeminiCandidate where
  content : Option GeminiContent
  finishReason : Option String
deriving DecidableEq, Repr

structure GeminiUsageMetadata where
  promptTokenCount : Nat
  candidatesTokenCount : Option Nat
  cachedContentTokenCount : Option Nat
deriving DecidableEq, Repr

structure GeminiStreamChunk where
  candidates : List GeminiCandidate
  usageMetadata : Option GeminiUsageMetadata
deriving DecidableEq, Repr

/-- Mutable state of `GeminiParser` (src/providers/gemini.rs lines 330-332). -/
structure GeminiParserState where
  last_usage : Option Usage
deriving DecidableEq, Repr

/-- The "update usage (keep last)" step at the top of
`GeminiParser::parse_chunk` (src/providers/gemini.rs lines 351-359). -/
def geminiUpdateUsage (st : GeminiParserState) (chunk : GeminiStreamChunk) :
    GeminiParserState :=
  match chunk.usageMetadata with
  | some usage =>
    let u := Usage.mk usage.promptTokenCount (usage.candidatesTokenCount.getD 0)
      (usage.cachedContentTokenCount.getD 0) 0
    { st with last_usage := some u }
  | none => st

/-- The chunk built for the first candidate
(src/providers/gemini.rs lines 369-416): collect the text of the parts,
look for the first `functionCall` part (minting a local `call_<rand>` id),
pick the chunk shape, then attach the mapped finish reason and the latest
usage. -/
def geminiBuildChunk (candidate : GeminiCandidate) (lastUsage : Option Usage)
    (rand : Nat) : StreamChunk :=
  let text : String := match candidate.content with
    | some c => String.join (c.parts.filterMap (fun p => p.text))
    | none => ""
  let toolCallDelta : Option ToolCallDelta := match candidate.content with
    | some c => c.parts.findSome? (fun p =>
        p.function_call.map (fun fc =>
          ToolCallDelta.mk 0 (some ("call_" ++ Nat.repr rand))
            (some fc.name) (some fc.args)))
    | none => none
  let out := if ¬ text = "" then
      StreamChunk.textOwned text
    else if toolCallDelta.isSome then
      { StreamChunk.empty ChunkKind.toolDelta with tool_call_delta := toolCallDelta }
    else
      StreamChunk.empty ChunkKind.unknown
  let out := match candidate.finishReason with
    | some reason =>
      { out with finish_reason := some (
          if reason = "STOP" then FinishReason.stop
          else if reason = "MAX_TOKENS" then FinishReason.length
          else if reason = "SAFETY" then FinishReason.contentFilter
          else FinishReason.unknown) }
    | none => out
  { out with usage := lastUsage }

/-- `GeminiParser::parse_chunk` (src/providers/gemini.rs lines 347-418).
Decode errors happen only at the JSON layer, which is upstream of this
model, so the result is `Option StreamChunk` directly. -/
def geminiParseChunk (st : GeminiParserState) (chunk : GeminiStreamChunk)
    (rand : Nat) : GeminiParserState × Option StreamChunk :=
  let st := geminiUpdateUsage st chunk
  match chunk.candidates.head? with
  | none =>
    match st.last_usage with
    | some usage => (st, some (StreamChunk.usageChunk usage))
    | none => (st, none)
  | some candidate =>
    (st, some (geminiBuildChunk candidate st.last_usage rand))

/-! ## SSE parser (src/sse.rs)

The parser state is `buffer : BytesMut` plus `consumed : usize`; the three
scratch `String`s are cleared at the start of every `next_event` call, so
they carry no state between calls and are threaded locally.  Bytes are
`Nat`s (10 = LF, 13 = CR, 58 = colon, 32 = space). -/

/-- The three scratch buffers of one `next_event` call
(src/sse.rs lines 23-28). -/
structure SseFields where
  data : List Nat
  event : List Nat
  id : List Nat
deriving DecidableEq, Repr

def SseFields.empty : SseFields := ⟨[], [], []⟩

/-- A parsed SSE event (src/sse.rs lines 13-18): empty scratch buffers become
`None` for `event` and `id`. -/
structure SseEvent where
  event : Option (List Nat)
  data : List Nat
  id : Option (List Nat)
deriving DecidableEq, Repr

/-- `line.ends_with(b"\r")` handling (src/sse.rs lines 91-95). -/
def stripCR (line : List Nat) : List Nat :=
  if line.getLast? = some 13 then line.dropLast else line

/-- `memchr(b':', line)`: position of the first colon. -/
def findColon : List Nat → Option Nat
  | [] => none
  | b :: rest => if b = 58 then some 0 else (findColon rest).map (· + 1)

/-- Whether a byte is a UTF-8 continuation byte (`0x80..=0xBF`). -/
def utf8Cont (b : Nat) : Bool := 128 ≤ b ∧ b ≤ 191

/-- `std::str::from_utf8(..).is_ok()`: RFC 3629 validity, including the
overlong-encoding and surrogate exclusions the Rust validator enforces. -/
def utf8Valid : List Nat → Bool
  | [] => true
  | b :: rest =>
    if b ≤ 127 then utf8Valid rest
    else if b ≤ 193 then false
    else if b ≤ 223 then
      match rest with
      | c :: rest2 => utf8Cont c && utf8Valid rest2
      | [] => false
    else if b = 224 then
      match rest with
      | c :: d :: rest2 =>
        (decide (160 ≤ c ∧ c ≤ 191)) && utf8Cont d && utf8Valid rest2
      | _ => false
    else if b ≤ 236 then
      match rest with
      | c :: d :: rest2 => utf8Cont c && utf8Cont d && utf8Valid rest2
      | _ => false
    else if b = 237 then
      match rest with
      | c :: d :: rest2 =>
        (decide (128 ≤ c ∧ c ≤ 159)) && utf8Cont d && utf8Valid rest2
      | _ => false
    else if b ≤ 239 then
      match rest with
      | c :: d :: rest2 => utf8Cont c && utf8Cont d && utf8Valid rest2
      | _ => false
    else if b = 240 then
      match rest with
      | c :: d :: e :: rest2 =>
        (decide (144 ≤ c ∧ c ≤ 191)) && utf8Cont d && utf8Cont e && utf8Valid rest2
      | _ => false
    else if b ≤ 243 then
      match rest with
      | c :: d :: e :: rest2 =>
        utf8Cont c && utf8Cont d && utf8Cont e && utf8Valid rest2
      | _ => false
    else if b = 244 then
      match rest with
      | c :: d :: e :: rest2 =>
        (decide (128 ≤ c ∧ c ≤ 143)) && utf8Cont d && utf8Cont e && utf8Valid rest2
      | _ => false
    else false

/-- Byte strings of the three recognized field names. -/
def dataField : List Nat := [100, 97, 116, 97]
def eventField : List Nat := [101, 118, 101, 110, 116]
def idField : List Nat := [105, 100]

/-- Field-line handling inside the `next_event` loop
(src/sse.rs lines 104-136): locate the colon, skip one optional space after
it, keep the value only when it is valid UTF-8, then update the matching
scratch buffer (`data` appends with a `\n` separator when non-empty; `event`
and `id` are replaced).  Lines without a colon — including `:` comments via
an empty field name — fall through unchanged. -/
def applyFieldLine (fields : SseFields) (line : List Nat) : SseFields :=
  match findColon line with
  | none => fields
  | some colonPos =>
    let field := line.take colonPos
    let valueStart := if line.get? (colonPos + 1) = some 32 then colonPos + 2 else colonPos + 1
    let value := line.drop valueStart
    if utf8Valid value then
      if field = dataField then
        { fields with data :=
            (if fields.data = [] then [] else fields.data ++ [10]) ++ value }
      else if field = eventField then
        { fields with event := value }
      else if field = idField then
        { fields with id := value }
      else fields
    else fields

/-- The line loop of `next_event` (src/sse.rs lines 82-139): consume bytes of
one event up to and including its terminating blank line.  `cur` holds the
bytes of the current line in reverse (the Rust code instead indexes with
`memchr(b'\n', ..)`; scanning byte-by-byte is the same traversal).  Returns
the collected fields and the bytes after the blank line, or `none` when no
blank-line-terminated event is complete yet. -/
def scanBlock (fields : SseFields) (cur : List Nat) :
    List Nat → Option (SseFields × List Nat)
  | [] => none
  | b :: rest =>
    if b = 10 then
      if stripCR cur.reverse = [] then some (fields, rest)
      else scanBlock (applyFieldLine fields (stripCR cur.reverse)) [] rest
    else scanBlock fields (b :: cur) rest

theorem scanBlock_shrinks (l : List Nat) : ∀ fields cur fields2 rest,
    scanBlock fields cur l = some (fields2, rest) →
    rest <:+ l ∧ rest.length < l.length := by
  induction l with
  | nil => intro fields cur fields2 rest h; simp [scanBlock] at h
  | cons b tl ih =>
    intro fields cur fields2 rest h
    rw [scanBlock] at h
    split at h
    · split at h
      · simp only [Option.some.injEq, Prod.mk.injEq] at h
        obtain ⟨-, hr⟩ := h
        subst hr
        exact ⟨List.suffix_cons b tl, by simp⟩
      · obtain ⟨hsuf, hlt⟩ := ih _ _ _ _ h
        exact ⟨hsuf.trans (List.suffix_cons b tl), Nat.lt_succ_of_lt hlt⟩
    · obtain ⟨hsuf, hlt⟩ := ih _ _ _ _ h
      exact ⟨hsuf.trans (List.suffix_cons b tl), Nat.lt_succ_of_lt hlt⟩

/-- `SseParser::next_event` on the unconsumed byte suffix
(src/sse.rs lines 70-176): scratch buffers start cleared, one block is
scanned, events whose data is empty are skipped by the tail recursion
(`return self.next_event()` at line 151), and empty `event`/`id` scratches
surface as `None`.  The second component is the suffix left unconsumed:
on failure the input itself (`consumed` is only advanced once a blank line
has been seen), after skipped data-less blocks the bytes following them. -/
def nextEventSuffix (l : List Nat) : Option SseEvent × List Nat :=
  match h : scanBlock SseFields.empty [] l with
  | none => (none, l)
  | some (fields, rest) =>
    if fields.data = [] then nextEventSuffix rest
    else
      (some ⟨if fields.event = [] then none else some fields.event,
        fields.data,
        if fields.id = [] then none else some fields.id⟩, rest)
termination_by l.length
decreasing_by exact (scanBlock_shrinks l _ _ _ _ h).2

theorem nextEventSuffix_isSuffix (l : List Nat) : (nextEventSuffix l).2 <:+ l := by
  induction l using nextEventSuffix.induct with
  | case1 l hscan =>
    rw [nextEventSuffix, hscan]
  | case2 l fields rest0 hscan hdata ih =>
    rw [nextEventSuffix, hscan]
    simp only [hdata, if_pos rfl]
    exact ih.trans (scanBlock_shrinks l _ _ _ _ hscan).1
  | case3 l fields rest0 hscan hdata =>
    rw [nextEventSuffix, hscan]
    simp only [if_neg hdata]
    exact (scanBlock_shrinks l _ _ _ _ hscan).1

theorem nextEventSuffix_shrinks (l : List Nat) : ∀ e rest,
    nextEventSuffix l = (some e, rest) → rest <:+ l ∧ rest.length < l.length := by
  induction l using nextEventSuffix.induct with
  | case1 l hscan =>
    intro e rest h
    rw [nextEventSuffix, hscan] at h
    exact absurd h (by simp)
  | case2 l fields rest0 hscan hdata ih =>
    intro e rest h
    rw [nextEventSuffix, hscan] at h
    simp only [hdata, if_pos rfl] at h
    obtain ⟨hsuf, hlt⟩ := ih _ _ h
    obtain ⟨hsuf0, hlt0⟩ := scanBlock_shrinks l _ _ _ _ hscan
    exact ⟨hsuf.trans hsuf0, hlt.trans hlt0⟩
  | case3 l fields rest0 hscan hdata =>
    intro e rest h
    rw [nextEventSuffix, hscan] at h
    simp only [if_neg hdata, Option.some.injEq, Prod.mk.injEq] at h
    obtain ⟨hsuf0, hlt0⟩ := scanBlock_shrinks l _ _ _ _ hscan
    exact h.2 ▸ ⟨hsuf0, hlt0⟩

/-- A complete data-less block only moves `consumed` forward; when no block
is complete at all, nothing is consumed. -/
theorem nextEventSuffix_scan_none {l : List Nat}
    (h : scanBlock SseFields.empty [] l = none) :
    nextEventSuffix l = (none, l) := by
  rw [nextEventSuffix, h]

/-- Parser state (src/sse.rs lines 21-31): the byte buffer and the offset of
unconsumed data.  The scratch strings are call-local (cleared on entry to
`next_event`) and live inside `nextEventSuffix`. -/
structure SseParser where
  buffer : List Nat
  consumed : Nat
deriving DecidableEq, Repr

/-- `SseParser::new` (src/sse.rs lines 35-48; capacities do not affect
behaviour). -/
def SseParser.new : SseParser := ⟨[], 0⟩

/-- The unconsumed byte suffix `&self.buffer[self.consumed..]`. -/
def SseParser.suffix (p : SseParser) : List Nat := p.buffer.drop p.consumed

/-- `SseParser::feed` (src/sse.rs lines 52-66): compact when the consumed
prefix exceeds both half the buffer and 4096 bytes, then append. -/
def SseParser.feed (p : SseParser) (data : List Nat) : SseParser :=
  let p := if p.consumed > p.buffer.length / 2 ∧ p.consumed > 4096 then
      SseParser.mk (p.buffer.drop p.consumed) 0
    else p
  SseParser.mk (p.buffer ++ data) p.consumed

/-- `SseParser::next_event` (src/sse.rs lines 70-176).  The Rust code
advances `consumed` by the bytes of every scanned block (`event_end`,
including skipped data-less ones); those bytes total the length difference
between the old suffix and the remainder returned by `nextEventSuffix`. -/
def SseParser.nextEvent (p : SseParser) : Option SseEvent × SseParser :=
  ((nextEventSuffix p.suffix).1,
   SseParser.mk p.buffer
     (p.consumed + (p.suffix.length - (nextEventSuffix p.suffix).2.length)))

/-- Consuming a suffix of the suffix: the state after `next_event` has
exactly the remainder from `nextEventSuffix` as its unconsumed bytes. -/
theorem nextEvent_suffix (p : SseParser) :
    (p.nextEvent).1 = (nextEventSuffix p.suffix).1 ∧
    (p.nextEvent).2.suffix = (nextEventSuffix p.suffix).2 := by
  constructor
  · rfl
  · obtain ⟨t, ht⟩ := nextEventSuffix_isSuffix p.suffix
    set rest := (nextEventSuffix p.suffix).2 with hrest
    have hlen : p.suffix.length = t.length + rest.length := by
      rw [← ht]; simp
    have hx : p.suffix.length - rest.length = t.length := by omega
    show p.buffer.drop (p.consumed + (p.suffix.length - rest.length)) = rest
    rw [hx, ← List.drop_drop]
    show p.suffix.drop t.length = rest
    rw [← ht, List.drop_left]

theorem nextEvent_some_suffix {p : SseParser} {e : SseEvent} {p2 : SseParser}
    (h : p.nextEvent = (some e, p2)) :
    nextEventSuffix p.suffix = (some e, p2.suffix) ∧
      p2.suffix.length < p.suffix.length := by
  obtain ⟨h1, h2⟩ := nextEvent_suffix p
  rw [h] at h1 h2
  have hne : nextEventSuffix p.suffix = (some e, p2.suffix) := by
    rw [Prod.ext_iff]
    exact ⟨h1.symm, h2.symm⟩
  exact ⟨hne, (nextEventSuffix_shrinks _ _ _ hne).2⟩

/-- When no blank-line-terminated block is complete, `next_event` returns
"not ready" and leaves the parser untouched. -/
theorem nextEvent_scan_none {p : SseParser}
    (h : scanBlock SseFields.empty [] p.suffix = none) :
    p.nextEvent = (none, p) := by
  have hne := nextEventSuffix_scan_none h
  unfold SseParser.nextEvent
  rw [hne]
  simp

/-- One-shot reference: parse every complete event out of a byte list by
repeated `nextEventSuffix`. -/
def drainSuffix (l : List Nat) : List SseEvent :=
  match h : nextEventSuffix l with
  | (none, _) => []
  | (some e, rest) => e :: drainSuffix rest
termination_by l.length
decreasing_by exact (nextEventSuffix_shrinks l _ _ h).2

theorem drainSuffix_none {l : List Nat} (h : (nextEventSuffix l).1 = none) :
    drainSuffix l = [] := by
  rw [drainSuffix]; split <;> simp_all

theorem drainSuffix_some {l : List Nat} {e : SseEvent} {rest : List Nat}
    (h : nextEventSuffix l = (some e, rest)) :
    drainSuffix l = e :: drainSuffix rest := by
  rw [drainSuffix]; split <;> simp_all

/-- Draining the parser: call `next_event` until it reports "not ready".
This is what the stream aggregator does with the buffered bytes. -/
def SseParser.drain (p : SseParser) : List SseEvent :=
  match h : p.nextEvent with
  | (none, _) => []
  | (some e, p2) => e :: p2.drain
termination_by p.suffix.length
decreasing_by exact (nextEvent_some_suffix h).2

theorem drain_eq_drainSuffix (p : SseParser) : p.drain = drainSuffix p.suffix := by
  induction p using SseParser.drain.induct with
  | case1 p q h =>
    have h1 := (nextEvent_suffix p).1
    rw [h] at h1
    rw [SseParser.drain]
    split
    · exact (drainSuffix_none h1.symm).symm
    · next e p2 heq =>
      rw [h] at heq
      simp at heq
  | case2 p e p2 h ih =>
    obtain ⟨hne, -⟩ := nextEvent_some_suffix h
    rw [SseParser.drain]
    split
    · next q heq =>
      rw [h] at heq
      simp at heq
    · next e2 p3 heq =>
      rw [h] at heq
      simp only [Prod.mk.injEq, Option.some.injEq] at heq
      obtain ⟨rfl, rfl⟩ := heq
      rw [drainSuffix_some hne, ih]

/-- Feeding from a freshly created parser never compacts (`consumed` stays
`0`), so the buffer is just the concatenation of everything fed. -/
theorem foldl_feed_zero (parts : List (List Nat)) : ∀ b : List Nat,
    List.foldl SseParser.feed (SseParser.mk b 0) parts =
      SseParser.mk (b ++ parts.flatten) 0 := by
  induction parts with
  | nil => intro b; simp
  | cons d rest ih =>
    intro b
    have hfeed : SseParser.feed (SseParser.mk b 0) d = SseParser.mk (b ++ d) 0 := by
      unfold SseParser.feed
      simp
    rw [List.foldl_cons, hfeed, ih, List.flatten_cons, List.append_assoc]

/-! ## Helper lemmas for the Usage merge claim -/

theorem foldl_merge_fields (us : List Usage) : ∀ init : Usage,
    ((us.foldl Usage.merge init).input_tokens
        = max init.input_tokens ((us.map Usage.input_tokens).foldr max 0)) ∧
    ((us.foldl Usage.merge init).output_tokens
        = max init.output_tokens ((us.map Usage.output_tokens).foldr max 0)) ∧
    ((us.foldl Usage.merge init).cache_read_input_tokens
        = max init.cache_read_input_tokens
            ((us.map Usage.cache_read_input_tokens).foldr max 0)) ∧
    ((us.foldl Usage.merge init).cache_creation_input_tokens
        = max init.cache_creation_input_tokens
            ((us.map Usage.cache_creation_input_tokens).foldr max 0)) := by
  induction us with
  | nil =>
    intro init
    simp only [List.foldl_nil, List.map_nil, List.foldr_nil]
    omega
  | cons u us ih =>
    intro init
    obtain ⟨h1, h2, h3, h4⟩ := ih (Usage.merge init u)
    simp only [List.foldl_cons, List.map_cons, List.foldr_cons]
    rw [h1, h2, h3, h4]
    simp only [Usage.merge]
    omega

theorem le_foldr_max (f : Usage → Nat) : ∀ (us : List Usage) (u : Usage), u ∈ us →
    f u ≤ (us.map f).foldr max 0 := by
  intro us
  induction us with
  | nil => intro u h; simp at h
  | cons v vs ih =>
    intro u h
    simp only [List.map_cons, List.foldr_cons]
    rcases List.mem_cons.mp h with rfl | h2
    · exact Nat.le_max_left _ _
    · exact Nat.le_trans (ih u h2) (Nat.le_max_right _ _)

/-- C2: merging a sequence of `Usage` values is the field-wise maximum:
the result dominates every input field-wise and each field equals the
maximum of that field over all inputs; `Usage::merge` itself is
commutative, associative, idempotent and monotone. -/
theorem usage_merge_fieldwise_max :
    (∀ us : List Usage, ∀ u ∈ us, Usage.le u (Usage.mergeAll us)) ∧
    (∀ us : List Usage,
      (Usage.mergeAll us).input_tokens = (us.map Usage.input_tokens).foldr max 0 ∧
      (Usage.mergeAll us).output_tokens = (us.map Usage.output_tokens).foldr max 0 ∧
      (Usage.mergeAll us).cache_read_input_tokens
          = (us.map Usage.cache_read_input_tokens).foldr max 0 ∧
      (Usage.mergeAll us).cache_creation_input_tokens
          = (us.map Usage.cache_creation_input_tokens).foldr max 0) ∧
    (∀ a b : Usage, Usage.merge a b = Usage.merge b a) ∧
    (∀ a b c : Usage, Usage.merge (Usage.merge a b) c = Usage.merge a (Usage.merge b c)) ∧
    (∀ a : Usage, Usage.merge a a = a) ∧
    (∀ a b a2 b2 : Usage, Usage.le a a2 → Usage.le b b2 →
      Usage.le (Usage.merge a b) (Usage.merge a2 b2)) := by
  refine ⟨?_, ?_, ?_, ?_, ?_, ?_⟩
  · intro us u hu
    obtain ⟨h1, h2, h3, h4⟩ := foldl_merge_fields us Usage.default
    have hd1 : Usage.default.input_tokens = 0 := rfl
    have hd2 : Usage.default.output_tokens = 0 := rfl
    have hd3 : Usage.default.cache_read_input_tokens = 0 := rfl
    have hd4 : Usage.default.cache_creation_input_tokens = 0 := rfl
    have m1 := le_foldr_max Usage.input_tokens us u hu
    have m2 := le_foldr_max Usage.output_tokens us u hu
    have m3 := le_foldr_max Usage.cache_read_input_tokens us u hu
    have m4 := le_foldr_max Usage.cache_creation_input_tokens us u hu
    unfold Usage.mergeAll
    exact ⟨by omega, by omega, by omega, by omega⟩
  · intro us
    obtain ⟨h1, h2, h3, h4⟩ := foldl_merge_fields us Usage.default
    have hd1 : Usage.default.input_tokens = 0 := rfl
    have hd2 : Usage.default.output_tokens = 0 := rfl
    have hd3 : Usage.default.cache_read_input_tokens = 0 := rfl
    have hd4 : Usage.default.cache_creation_input_tokens = 0 := rfl
    unfold Usage.mergeAll
    refine ⟨?_, ?_, ?_, ?_⟩ <;> omega
  · intro a b
    cases a; cases b
    simp only [Usage.merge, Usage.mk.injEq]
    omega
  · intro a b c
    cases a; cases b; cases c
    simp only [Usage.merge, Usage.mk.injEq]
    omega
  · intro a
    cases a
    simp only [Usage.merge, Usage.mk.injEq]
    omega
  · intro a b a2 b2 h1 h2
    obtain ⟨x1, x2, x3, x4⟩ := h1
    obtain ⟨y1, y2, y3, y4⟩ := h2
    refine ⟨?_, ?_, ?_, ?_⟩ <;> simp only [Usage.merge] <;> omega

/-- Witness for C2 at a concrete input: the merged accumulator dominates the
first input and the monotonicity conjunct holds at concrete values. -/
theorem usage_merge_fieldwise_max_witness :
    Usage.le (Usage.mk 3 0 7 0)
      (Usage.mergeAll [Usage.mk 3 0 7 0, Usage.mk 1 5 0 2]) ∧
    Usage.le (Usage.merge (Usage.mk 1 1 1 1) (Usage.mk 2 0 0 0))
      (Usage.merge (Usage.mk 2 1 1 1) (Usage.mk 3 0 0 4)) :=
  ⟨usage_merge_fieldwise_max.1 [Usage.mk 3 0 7 0, Usage.mk 1 5 0 2]
      (Usage.mk 3 0 7 0) (by simp),
   usage_merge_fieldwise_max.2.2.2.2.2 (Usage.mk 1 1 1 1) (Usage.mk 2 0 0 0)
      (Usage.mk 2 1 1 1) (Usage.mk 3 0 0 4) (by decide) (by decide)⟩

/-- C5: `Error::is_retryable` holds exactly for the rate-limited, server and
timeout kinds; every other kind is non-retryable. -/
theorem error_is_retryable_iff (e : Error) :
    e.is_retryable = true ↔
      (e.kind = ErrorKind.rateLimited ∨ e.kind = ErrorKind.server ∨
       e.kind = ErrorKind.timeout) := by
  cases e <;> simp [Error.is_retryable, Error.kind]

/-! ## Helper lemmas for ModelId::parse -/

theorem splitOnceSlash_some : ∀ (s p m : List Char),
    splitOnceSlash s = some (p, m) → s = p ++ '/' :: m ∧ '/' ∉ p := by
  intro s
  induction s with
  | nil => intro p m h; simp [splitOnceSlash] at h
  | cons c cs ih =>
    intro p m h
    rw [splitOnceSlash] at h
    split at h
    · next hc =>
      simp only [Option.some.injEq, Prod.mk.injEq] at h
      obtain ⟨rfl, rfl⟩ := h
      subst hc
      exact ⟨rfl, by simp⟩
    · next hc =>
      cases hsp : splitOnceSlash cs with
      | none => rw [hsp] at h; simp at h
      | some pm =>
        obtain ⟨p2, m2⟩ := pm
        rw [hsp] at h
        simp only [Option.map_some', Option.some.injEq, Prod.mk.injEq] at h
        obtain ⟨hp, hm⟩ := h
        subst hp; subst hm
        obtain ⟨hs, hnotin⟩ := ih p2 m2 hsp
        refine ⟨by rw [hs]; rfl, ?_⟩
        simp only [List.mem_cons, not_or]
        exact ⟨fun hcc => hc hcc.symm, hnotin⟩

theorem splitOnceSlash_complete : ∀ (p m : List Char), '/' ∉ p →
    splitOnceSlash (p ++ '/' :: m) = some (p, m) := by
  intro p
  induction p with
  | nil => intro m _; simp [splitOnceSlash]
  | cons c cs ih =>
    intro m h
    rw [List.cons_append, splitOnceSlash]
    have hc : ¬ c = '/' := by
      intro hcc
      exact h (by rw [hcc]; exact List.mem_cons_self _ _)
    rw [if_neg hc, ih m (fun hmem => h (List.mem_cons_of_mem c hmem))]
    rfl

/-- C7: `ModelId::parse` succeeds exactly when the string decomposes as
`p ++ "/" ++ m` at the first slash with both halves non-empty, and on
success reassembling `provider ++ "/" ++ model` restores the input, even
when the model half contains further slashes. -/
theorem modelid_parse_characterization (s : List Char) :
    ((∃ pm, ModelId.parse s = Except.ok pm) ↔
      ∃ p m, s = p ++ '/' :: m ∧ '/' ∉ p ∧ ¬ p = [] ∧ ¬ m = []) ∧
    (∀ p m, ModelId.parse s = Except.ok (p, m) → p ++ '/' :: m = s) := by
  constructor
  · constructor
    · rintro ⟨⟨p, m⟩, hok⟩
      unfold ModelId.parse at hok
      cases hsp : splitOnceSlash s with
      | none => rw [hsp] at hok; simp at hok
      | some pm0 =>
        obtain ⟨p0, m0⟩ := pm0
        rw [hsp] at hok
        simp only at hok
        split at hok
        · simp at hok
        · next hne =>
          simp only [Except.ok.injEq, Prod.mk.injEq] at hok
          obtain ⟨rfl, rfl⟩ := hok
          obtain ⟨hs, hnotin⟩ := splitOnceSlash_some s p0 m0 hsp
          push_neg at hne
          exact ⟨p0, m0, hs, hnotin, hne.1, hne.2⟩
    · rintro ⟨p, m, rfl, hnotin, hp, hm⟩
      refine ⟨(p, m), ?_⟩
      unfold ModelId.parse
      rw [splitOnceSlash_complete p m hnotin]
      simp only
      rw [if_neg (by simp [hp, hm])]
  · intro p m hok
    unfold ModelId.parse at hok
    cases hsp : splitOnceSlash s with
    | none => rw [hsp] at hok; simp at hok
    | some pm0 =>
      obtain ⟨p0, m0⟩ := pm0
      rw [hsp] at hok
      simp only at hok
      split at hok
      · simp at hok
      · simp only [Except.ok.injEq, Prod.mk.injEq] at hok
        obtain ⟨rfl, rfl⟩ := hok
        exact (splitOnceSlash_some s p0 m0 hsp).1.symm

/-- Witness for C7: parse then reassemble on "a/b/c". -/
theorem modelid_parse_characterization_witness :
    ['a'] ++ '/' :: ['b', '/', 'c'] = ['a', '/', 'b', '/', 'c'] :=
  (modelid_parse_characterization ['a', '/', 'b', '/', 'c']).2
    ['a'] ['b', '/', 'c'] (by rfl)

/-! ## Retry bound (C4) -/

theorem executeAttempts_bound (mr : Nat) : ∀ (outs : List ReqOutcome) (attempt : Nat),
    (executeAttempts mr attempt outs).1 ≤ max (mr - attempt) 1 := by
  intro outs
  induction outs with
  | nil =>
    intro attempt
    simp only [executeAttempts]
    omega
  | cons o rest ih =>
    intro attempt
    cases o with
    | response status retryAfter =>
      simp only [executeAttempts]
      split
      · simp
      · split
        · simp
        · next hcond =>
          have hrec := ih (attempt + 1)
          push_neg at hcond
          simp only []
          omega
    | failTimeout =>
      simp only [executeAttempts]
      split
      · simp
      · next hcond =>
        have hrec := ih (attempt + 1)
        simp only []
        omega
    | failConnect =>
      simp only [executeAttempts]
      split
      · simp
      · next hcond =>
        have hrec := ih (attempt + 1)
        simp only []
        omega
    | failOther =>
      simp only [executeAttempts]
      omega

/-- C4 counterexample: with `max_retries = 0` the executor still issues one
HTTP request (the loop posts before checking the attempt limit), violating
"at most max_retries requests". -/
theorem retry_bound_counterexample :
    (executeAttempts 0 0 [ReqOutcome.response 500 none]).1 = 1 ∧
    ¬ (executeAttempts 0 0 [ReqOutcome.response 500 none]).1 ≤ 0 := by
  decide

/-- C4 amended: one logical send issues at most `max max_retries 1` HTTP
requests — the configured bound, except that the first request is always
sent even when `max_retries = 0`. -/
theorem retry_request_bound (maxRetries : Nat) (outcomes : List ReqOutcome) :
    (executeAttempts maxRetries 0 outcomes).1 ≤ max maxRetries 1 := by
  have h := executeAttempts_bound maxRetries outcomes 0
  omega

/-! ## Finalize semantics (C8, C9) -/

theorem finalizeStream_of_not_finalized (st : AggState) (h : st.finalized = false) :
    (st.finalizeStream).1 = Except.ok
      (CompletionResult.mk st.content st.usage st.model
        (st.finish_reason.getD FinishReason.stop) st.tool_calls.finalize) ∧
    ((st.finalizeStream).2.finalizeStream).1 = Except.error Error.StreamConsumed := by
  simp [AggState.finalizeStream, h]

/-- C8: the first `finalize` on an unfinalized stream returns the aggregated
result; applying `finalize` to the stream state it leaves behind yields the
stream-consumed error, not a second aggregate. -/
theorem finalize_exactly_once (st : AggState) (h : st.finalized = false) :
    (st.finalizeStream).1 = Except.ok
      (CompletionResult.mk st.content st.usage st.model
        (st.finish_reason.getD FinishReason.stop) st.tool_calls.finalize) ∧
    ((st.finalizeStream).2.finalizeStream).1 = Except.error Error.StreamConsumed :=
  finalizeStream_of_not_finalized st h

/-- Witness for C8 on a freshly created stream. -/
theorem finalize_exactly_once_witness :
    ((AggState.new "m").finalizeStream).1 = Except.ok
      (CompletionResult.mk (AggState.new "m").content (AggState.new "m").usage
        (AggState.new "m").model
        ((AggState.new "m").finish_reason.getD FinishReason.stop)
        (AggState.new "m").tool_calls.finalize) ∧
    (((AggState.new "m").finalizeStream).2.finalizeStream).1
        = Except.error Error.StreamConsumed :=
  finalize_exactly_once (AggState.new "m") rfl

theorem accumulate_finalized (st : AggState) (c : StreamChunk) :
    (st.accumulate c).finalized = st.finalized := by
  unfold AggState.accumulate
  cases htext : c.text <;> cases husage : c.usage <;>
    cases hfr : c.finish_reason <;> cases hdelta : c.tool_call_delta <;>
      simp [htext, husage, hfr, hdelta]

theorem accumulate_finish_reason_none (st : AggState) (c : StreamChunk)
    (h : c.finish_reason = none) :
    (st.accumulate c).finish_reason = st.finish_reason := by
  unfold AggState.accumulate
  cases htext : c.text <;> cases husage : c.usage <;> cases hdelta : c.tool_call_delta <;>
    simp [htext, husage, h, hdelta]

theorem foldl_accumulate_no_reason (chunks : List StreamChunk) :
    ∀ st : AggState, (∀ c ∈ chunks, c.finish_reason = none) →
    ((chunks.foldl AggState.accumulate st).finish_reason = st.finish_reason ∧
     (chunks.foldl AggState.accumulate st).finalized = st.finalized) := by
  induction chunks with
  | nil => intro st _; exact ⟨rfl, rfl⟩
  | cons c cs ih =>
    intro st h
    simp only [List.foldl_cons]
    obtain ⟨h1, h2⟩ := ih (st.accumulate c) (fun x hx => h x (List.mem_cons_of_mem c hx))
    rw [h1, h2, accumulate_finish_reason_none st c (h c (List.mem_cons_self c cs)),
        accumulate_finalized]
    exact ⟨rfl, rfl⟩

/-- C9: a stream finalized after accumulating only chunks that carry no
finish reason (in particular zero chunks) reports `stop`, never `unknown`
and never an error. -/
theorem finalize_no_reason_stop (chunks : List StreamChunk) (model : String)
    (h : ∀ c ∈ chunks, c.finish_reason = none) :
    ∃ r : CompletionResult,
      ((chunks.foldl AggState.accumulate (AggState.new model)).finalizeStream).1
          = Except.ok r ∧
      r.finish_reason = FinishReason.stop := by
  obtain ⟨h1, h2⟩ := foldl_accumulate_no_reason chunks (AggState.new model) h
  set st := chunks.foldl AggState.accumulate (AggState.new model) with hst
  have hf : st.finalized = false := by rw [h2]; rfl
  have hr : st.finish_reason = none := by rw [h1]; rfl
  refine ⟨CompletionResult.mk st.content st.usage st.model
      (st.finish_reason.getD FinishReason.stop) st.tool_calls.finalize,
    (finalizeStream_of_not_finalized st hf).1, ?_⟩
  rw [hr]
  rfl

/-- Witness for C9: a Gemini-style stream that closed after a text chunk and
a usage-only chunk, neither carrying a finish reason. -/
theorem finalize_no_reason_stop_witness :
    ∃ r : CompletionResult,
      (([StreamChunk.textOwned "hi",
         StreamChunk.usageChunk (Usage.mk 5 3 0 0)].foldl
            AggState.accumulate (AggState.new "gemini-2.0-flash")).finalizeStream).1
          = Except.ok r ∧
      r.finish_reason = FinishReason.stop :=
  finalize_no_reason_stop
    [StreamChunk.textOwned "hi", StreamChunk.usageChunk (Usage.mk 5 3 0 0)]
    "gemini-2.0-flash" (by decide)

/-! ## Tool-call id/name accumulation (C1) -/

/-- The Anthropic tool-call stream of spec §8 scenario 2, shortened to two
argument fragments: the decoder re-emits the recorded id and name on every
`input_json_delta` (src/providers/claude.rs lines 356-364). -/
def c1Events : List ClaudeStreamEvent :=
  [ClaudeStreamEvent.contentBlockStart 0
      (ClaudeStreamBlock.toolUse "toolu_1" "get_weather"),
   ClaudeStreamEvent.contentBlockDelta 0 (ClaudeStreamDelta.inputJsonDelta "loc"),
   ClaudeStreamEvent.contentBlockDelta 0 (ClaudeStreamDelta.inputJsonDelta "ation")]

/-- C1 at the failing input: because `ToolCallAccumulator::apply` uses
`push_str` for `id` and `function.name` (src/types.rs lines 361-366) while
the Claude decoder re-emits both on every arguments delta, the finalized
tool call carries the id and name twice, not exactly once.  The arguments
fragments are concatenated correctly. -/
theorem claude_tool_id_not_replaced :
    (runClaudeStream c1Events "m").finalizeStream.1 = Except.ok
      (CompletionResult.mk "" Usage.default "m" FinishReason.stop
        [ToolCall.mk "toolu_1toolu_1" "function"
          (FunctionCall.mk "get_weatherget_weather" "location")]) ∧
    ¬ "toolu_1toolu_1" = "toolu_1" :=
  ⟨rfl, by decide⟩

/-! ## OpenAI Responses terminal chunk (C6) -/

/-- An OpenAI Responses stream that emits one tool-call arguments delta and
then `response.completed` with status `completed`. -/
def c6Events : List OpenAIStreamEvent :=
  [OpenAIStreamEvent.outputItemAdded
      (some (OpenAIStreamItem.functionCall "call_1" "get_weather")),
   OpenAIStreamEvent.functionCallArgumentsDelta "fc_1" "args",
   OpenAIStreamEvent.responseCompleted
      (CompletedResponse.mk "completed" (some (ResponsesUsage.mk 1 2 0)))]

/-- C6 at the failing input: the terminal chunk does carry the usage from
`response.usage` and the status-derived finish reason, but although a
tool-call delta was emitted during the stream, no override to tool-calls
happens anywhere — the aggregated finish reason stays `stop`
(src/providers/openai.rs lines 340-358 set it from the status only, and
src/stream.rs lines 114-152 never rewrite it). -/
theorem openai_stream_finish_reason_not_overridden :
    (runOpenAIStream c6Events "m").finalizeStream.1 = Except.ok
      (CompletionResult.mk "" (Usage.mk 1 2 0 0) "m" FinishReason.stop
        [ToolCall.mk "call_1" "function" (FunctionCall.mk "get_weather" "args")]) ∧
    ¬ FinishReason.stop = FinishReason.toolCalls :=
  ⟨rfl, by decide⟩

/-! ## Gemini tool-call ids (C10) -/

theorem findSome?_some {α β : Type} (f : α → Option β) : ∀ (l : List α) (b : β),
    l.findSome? f = some b → ∃ a ∈ l, f a = some b := by
  intro l
  induction l with
  | nil => intro b h; simp [List.findSome?] at h
  | cons x xs ih =>
    intro b h
    cases hfx : f x with
    | some y =>
      simp only [List.findSome?, hfx, Option.some.injEq] at h
      exact ⟨x, List.mem_cons_self x xs, by rw [hfx, h]⟩
    | none =>
      simp only [List.findSome?, hfx] at h
      obtain ⟨a, ha, hfa⟩ := ih b h
      exact ⟨a, List.mem_cons_of_mem x ha, hfa⟩

theorem string_append_prefix_ne_empty (a s : String) (ha : ¬ a = "") :
    ¬ (a ++ s) = "" := by
  intro hc
  have h1 := String.length_append a s
  rw [hc] at h1
  have h0 : ("" : String).length = 0 := rfl
  have h2 : a.length = 0 := by omega
  apply ha
  cases a with
  | mk data =>
    cases data with
    | nil => rfl
    | cons c cs => simp [String.length] at h2

theorem mem_set_self : ∀ (l : List ToolCallBuilder) (i : Nat) (b : ToolCallBuilder),
    i < l.length → b ∈ l.set i b := by
  intro l
  induction l with
  | nil => intro i b h; simp at h
  | cons x xs ih =>
    intro i b h
    cases i with
    | zero => simp [List.set]
    | succ n =>
      simp only [List.set]
      exact List.mem_cons_of_mem x (ih n b (by simpa using h))

/-- Any delta whose `id` is present and non-empty survives
`ToolCallAccumulator::finalize`'s empty-id filter after being applied. -/
theorem apply_finalize_ne_nil (acc : ToolCallAccumulator) (d : ToolCallDelta)
    (s : String) (hid : d.id = some s) (hs : ¬ s = "") :
    ¬ (acc.apply d).finalize = [] := by
  intro hnil
  unfold ToolCallAccumulator.finalize ToolCallAccumulator.apply at hnil
  simp only [hid, Option.getD_some] at hnil
  rw [List.map_eq_nil_iff, List.filter_eq_nil_iff] at hnil
  set calls := padTo acc.calls d.index with hcalls
  have hlen : d.index < calls.length := by
    rw [hcalls]
    unfold padTo
    rw [List.length_append, List.length_replicate]
    omega
  set b := calls.getD d.index ToolCallBuilder.default with hb
  set b2 : ToolCallBuilder :=
    { b with
      id := b.id ++ s
      name := b.name ++ (d.function_name.getD "")
      arguments := b.arguments ++ (d.function_arguments.getD "") } with hb2
  have hmem : b2 ∈ calls.set d.index b2 := mem_set_self calls d.index b2 hlen
  have hids : ¬ b2.id = "" := by
    rw [hb2]
    exact fun hc =>
      string_append_prefix_ne_empty s "" hs (by
        have : b.id ++ s ≠ "" := by
          intro hc2
          have h1 := String.length_append b.id s
          rw [hc2] at h1
          have h0 : ("" : String).length = 0 := rfl
          have h2 : s.length = 0 := by omega
          apply hs
          cases s with
          | mk data =>
            cases data with
            | nil => rfl
            | cons c cs => simp [String.length] at h2
        exact absurd hc this)
  exact hnil b2 hmem (by simpa using hids)

/-- A tool-call delta inside a built Gemini chunk can only originate from
the `functionCall` search over the candidate's parts. -/
theorem geminiBuildChunk_delta (candidate : GeminiCandidate) (lu : Option Usage)
    (rand : Nat) (d : ToolCallDelta)
    (h : (geminiBuildChunk candidate lu rand).tool_call_delta = some d) :
    (match candidate.content with
      | some c2 => c2.parts.findSome? (fun p =>
          p.function_call.map (fun fc =>
            ToolCallDelta.mk 0 (some ("call_" ++ Nat.repr rand))
              (some fc.name) (some fc.args)))
      | none => none) = some d := by
  unfold geminiBuildChunk at h
  cases hfr : candidate.finishReason with
  | some r =>
    simp only [hfr] at h
    split at h
    · simp [StreamChunk.textOwned] at h
    · split at h
      · simpa using h
      · simp [StreamChunk.empty] at h
  | none =>
    simp only [hfr] at h
    split at h
    · simp [StreamChunk.textOwned] at h
    · split at h
      · simpa using h
      · simp [StreamChunk.empty] at h

/-- C10: every tool-call delta the Gemini decoder emits for a `functionCall`
part carries index 0 and the locally minted id `"call_" ++ <rand>`, which is
never empty; hence after applying it, `finalize` never returns the empty
list (the call is not dropped by the empty-id filter).  The id depends only
on the random oracle, not on the vendor payload. -/
theorem gemini_tool_delta_index_zero_id (st : GeminiParserState)
    (ch : GeminiStreamChunk) (rand : Nat) (c : StreamChunk) (d : ToolCallDelta)
    (h1 : (geminiParseChunk st ch rand).2 = some c)
    (h2 : c.tool_call_delta = some d) :
    d.index = 0 ∧ d.id = some ("call_" ++ Nat.repr rand) ∧
    ¬ ("call_" ++ Nat.repr rand) = "" ∧
    ∀ acc : ToolCallAccumulator, ¬ (acc.apply d).finalize = [] := by
  unfold geminiParseChunk at h1
  cases hhead : ch.candidates.head? with
  | none =>
    simp only [hhead] at h1
    cases hlu : (geminiUpdateUsage st ch).last_usage with
    | some u =>
      simp only [hlu, Option.some.injEq] at h1
      rw [← h1] at h2
      simp [StreamChunk.usageChunk] at h2
    | none =>
      simp only [hlu] at h1
      simp at h1
  | some candidate =>
    simp only [hhead, Option.some.injEq] at h1
    rw [← h1] at h2
    have hd := geminiBuildChunk_delta candidate
      (geminiUpdateUsage st ch).last_usage rand d h2
    have hshape : d.index = 0 ∧ d.id = some ("call_" ++ Nat.repr rand) := by
      cases hcont : candidate.content with
      | none => rw [hcont] at hd; simp at hd
      | some c2 =>
        rw [hcont] at hd
        obtain ⟨p, hp, hfp⟩ := findSome?_some _ c2.parts d hd
        cases hfc : p.function_call with
        | none => rw [hfc] at hfp; simp at hfp
        | some fc =>
          rw [hfc] at hfp
          simp only [Option.map_some', Option.some.injEq] at hfp
          rw [← hfp]
          exact ⟨rfl, rfl⟩
    have hne : ¬ ("call_" ++ Nat.repr rand) = "" :=
      string_append_prefix_ne_empty "call_" (Nat.repr rand) (by decide)
    exact ⟨hshape.1, hshape.2, hne,
      fun acc => apply_finalize_ne_nil acc d ("call_" ++ Nat.repr rand) hshape.2 hne⟩

/-- Witness for C10 at a concrete chunk and random value. -/
theorem gemini_tool_delta_index_zero_id_witness :
    (ToolCallDelta.mk 0 (some "call_42") (some "get_weather") (some "args")).index = 0 ∧
    (ToolCallDelta.mk 0 (some "call_42") (some "get_weather") (some "args")).id
        = some ("call_" ++ Nat.repr 42) ∧
    ¬ ("call_" ++ Nat.repr 42) = "" ∧
    ∀ acc : ToolCallAccumulator,
      ¬ (acc.apply (ToolCallDelta.mk 0 (some "call_42")
            (some "get_weather") (some "args"))).finalize = [] :=
  gemini_tool_delta_index_zero_id (GeminiParserState.mk none)
    (GeminiStreamChunk.mk
      [GeminiCandidate.mk
        (some (GeminiContent.mk
          [GeminiPart.mk none (some (GeminiFunctionCall.mk "get_weather" "args"))]))
        none]
      none)
    42
    (StreamChunk.mk ChunkKind.toolDelta none none none
      (some (ToolCallDelta.mk 0 (some "call_42") (some "get_weather") (some "args"))))
    (ToolCallDelta.mk 0 (some "call_42") (some "get_weather") (some "args"))
    (by rfl) (by rfl)

/-! ## SSE partition independence (C3) -/

/-- C3: feeding a byte stream into the SSE parser in any partition and then
draining `next_event` produces exactly the events of the whole stream —
the same list as feeding everything in one call, and the same list as the
one-shot reference parse; and whenever no blank-line-terminated event is
complete yet, `next_event` returns "not ready" without consuming any
buffered bytes. -/
theorem sse_partition_independent (parts : List (List Nat)) (stream : List Nat)
    (h : parts.flatten = stream) :
    ((List.foldl SseParser.feed SseParser.new parts).drain
        = (SseParser.new.feed stream).drain) ∧
    ((SseParser.new.feed stream).drain = drainSuffix stream) ∧
    (∀ q : SseParser, scanBlock SseFields.empty [] q.suffix = none →
      q.nextEvent = (none, q)) := by
  have hfold : List.foldl SseParser.feed SseParser.new parts
      = SseParser.mk parts.flatten 0 := by
    have h2 := foldl_feed_zero parts []
    simpa [SseParser.new] using h2
  have hfeed1 : SseParser.new.feed stream = SseParser.mk stream 0 := by
    unfold SseParser.feed SseParser.new
    simp
  refine ⟨?_, ?_, ?_⟩
  · rw [hfold, hfeed1, h]
  · rw [hfeed1, drain_eq_drainSuffix]
    rfl
  · intro q hq
    exact nextEvent_scan_none hq

/-- Witness for C3: the bytes of `"data: hi\n\n"` split at every byte
boundary drain to the same events as a single feed. -/
theorem sse_partition_independent_witness :
    ([[100], [97], [116], [97], [58], [32], [104], [105], [10], [10]].flatten
        = [100, 97, 116, 97, 58, 32, 104, 105, 10, 10]) ∧
    ((List.foldl SseParser.feed SseParser.new
        [[100], [97], [116], [97], [58], [32], [104], [105], [10], [10]]).drain
      = (SseParser.new.feed [100, 97, 116, 97, 58, 32, 104, 105, 10, 10]).drain) :=
  ⟨by decide,
   (sse_partition_independent
      [[100], [97], [116], [97], [58], [32], [104], [105], [10], [10]]
      [100, 97, 116, 97, 58, 32, 104, 105, 10, 10] (by decide)).1⟩

end RustAiSdk
